import Mathlib

/-!
Verification development for the chunked virtual-matrix core of the
spykewave/syncopy repository (file spykewave/datatype/core.py).

The embedding translates the two central classes:

* ChunkData : an ordered list of externally stored 2-d chunks presented as
  one row-concatenated matrix, with bounds-checked 2-d slice queries that
  return a borrowed view for within-chunk queries and a freshly stacked
  buffer for cross-chunk queries.
* Indexer : a known-length wrapper around a forward-only producer, indexed
  through itertools.islice over the shared iterator (cursor-relative).

Machine integers in the source are Python ints, embedded as Int / Nat.
Fallible operations return Except. A chunk is modelled as its list of rows
together with its column count (a numpy array always carries both).
-/

deriving instance DecidableEq for Except

namespace Spykewave

/-- A 2-d chunk handle: its rows and its column count (numpy shape data). -/
structure Chunk (α : Type) where
  entries : List (List α)
  cols : Nat
deriving DecidableEq

/-- The numpy shape of a chunk: (number of rows, number of columns). -/
def Chunk.shape {α : Type} (c : Chunk α) : Nat × Nat :=
  (c.entries.length, c.cols)

/-- A chunk is rectangular when every row has exactly cols entries; numpy
arrays always satisfy this. -/
def Chunk.rect {α : Type} (c : Chunk α) : Prop :=
  ∀ r ∈ c.entries, r.length = c.cols

/-- The offending value reported inside a bounds error: either a scalar
index or a resolved (start, stop) range. -/
inductive ErrActual where
  | scalar (v : Int)
  | range (s e : Int)
deriving DecidableEq

/-- Errors raised by the embedded code, mirroring the Python exception
classes raised in core.py (SPWTypeError, SPWValueError, the IndexError
escaping from an empty chunk list, StopIteration from an exhausted
producer, and the ValueError that ndarray.item raises when a row lookup
does not match exactly one chunk). -/
inductive SpwError where
  | typeErr (varname : String)
  | valueErr (legal varname : String)
  | boundsErr (lb ub : Int) (varname : String) (actual : ErrActual)
  | indexErr
  | stopIteration
  | itemErr
deriving DecidableEq

/-- Modelled from the spec: spw_scalar_parser (spykewave.utils, not part of
the provided sources) validates an int-like scalar against inclusive
limits, raising a bounds error that reports the legal interval and the
offending value. -/
def spw_scalar_check (v : Int) (varname : String) (lo hi : Int) :
    Except SpwError Unit :=
  if lo ≤ v ∧ v ≤ hi then Except.ok ()
  else Except.error (SpwError.boundsErr lo hi varname (ErrActual.scalar v))

/-- A selector passed to ChunkData.__getitem__: a number or a slice with
optional start/stop (other inputs raise SPWTypeError and are not needed
by the development). -/
inductive Selector where
  | int (i : Int)
  | slice (start stop : Option Int)
deriving DecidableEq

/-- Result of a query: either a borrowed view into one chunk (chunk index
plus local row range and column range), or a freshly allocated owned
buffer, mirroring the view / np.vstack duality of __getitem__. -/
inductive Block (α : Type) where
  | view (chunkIdx lstart lstop cstart cstop : Nat)
  | owned (buf : List (List α))
deriving DecidableEq

/-- Row-range table of the chunk store: the source computes
cumlen = np.cumsum(nrows) and rows = zip(cumlen - nrows, cumlen); this
builds the same (start, stop) pairs with a running offset. -/
def offsets : List Nat → Nat → List (Nat × Nat)
  | [], _ => []
  | n :: rest, acc => (acc, acc + n) :: offsets rest (acc + n)

/-- The chunk store, with the fields of ChunkData.__slots__. -/
structure ChunkData (α : Type) where
  nrows : List Nat
  rows : List (Nat × Nat)
  M : Nat
  N : Nat
  shape : Nat × Nat
  size : Nat
  data : List (Chunk α)
deriving DecidableEq

/-- ChunkData.__init__. The isinstance check on the list and the 2-d check
on each shape cannot fail for the modelled input type. On an empty list
the source evaluates shapes[0][1] inside the column-consistency line,
which raises an uncaught IndexError. M is cumlen[-1], the total row sum. -/
def ChunkData.init {α : Type} (chunk_list : List (Chunk α)) :
    Except SpwError (ChunkData α) :=
  match chunk_list with
  | [] => Except.error SpwError.indexErr
  | c0 :: _ =>
    let shapes := chunk_list.map Chunk.shape
    if shapes.all (fun s => s.2 = (Chunk.shape c0).2) then
      let nr := shapes.map Prod.fst
      Except.ok
        { nrows := nr
          rows := offsets nr 0
          M := nr.sum
          N := (Chunk.shape c0).2
          shape := (nr.sum, (Chunk.shape c0).2)
          size := nr.sum * (Chunk.shape c0).2
          data := chunk_list }
    else
      Except.error
        (SpwError.valueErr "identical number of samples per chunk" "chunk_list")

/-- Python 2-d slicing of a list of rows by a column range:
r[cs:ce] applied to every row, i.e. drop cs then take (ce - cs). -/
def applyColRange {α : Type} (rws : List (List α)) (cs ce : Nat) :
    List (List α) :=
  rws.map (fun r => (r.drop cs).take (ce - cs))

/-- np.where([x in chunk for chunk in rows])[0].item(): collect the indices
of all ranges containing x and demand exactly one (ndarray.item raises
otherwise; the ranges produced by init are disjoint, so at most one ever
matches). -/
def whereItem (ranges : List (Nat × Nat)) (x : Nat) : Except SpwError Nat :=
  match (List.range ranges.length).filter
      (fun i => decide ((ranges.getD i (0, 0)).1 ≤ x ∧
                        x < (ranges.getD i (0, 0)).2)) with
  | [i] => Except.ok i
  | _ => Except.error SpwError.itemErr

/-- Selector conversion in __getitem__: a number is validated through the
scalar check with lims = [0, extent] and becomes the range (i, i + 1); a
slice gets its missing bounds defaulted to 0 and the extent. -/
def resolveSel (q : Selector) (extent : Nat) (vn : String) :
    Except SpwError (Int × Int) :=
  match q with
  | Selector.int i =>
    match spw_scalar_check i vn 0 (extent : Int) with
    | Except.error e => Except.error e
    | Except.ok _ => Except.ok (i, i + 1)
  | Selector.slice s e => Except.ok (s.getD 0, e.getD (extent : Int))

/-- ChunkData.__getitem__: resolve both selectors, check the row range
against [0, M] and the column range against [0, N] exactly as the source
conditions read, locate the chunks holding row.start and row.stop - 1,
then either stack the per-chunk pieces into an owned buffer (distinct
chunks) or return a view into the single chunk (local coordinates are
obtained by subtracting the chunk row offset). -/
def ChunkData.getitem {α : Type} (cd : ChunkData α) (qrow qcol : Selector) :
    Except SpwError (Block α) :=
  match resolveSel qrow cd.M "row" with
  | Except.error e => Except.error e
  | Except.ok row =>
    match resolveSel qcol cd.N "col" with
    | Except.error e => Except.error e
    | Except.ok col =>
      if ¬ (0 ≤ row.1 ∧ row.1 < (cd.M : Int)) ∨
         ¬ (0 < row.2 ∧ row.2 ≤ (cd.M : Int)) then
        Except.error (SpwError.boundsErr 0 (cd.M : Int) "row"
          (ErrActual.range row.1 row.2))
      else if ¬ (0 ≤ col.1 ∧ col.1 < (cd.N : Int)) ∨
              ¬ (0 < col.2 ∧ col.2 ≤ (cd.N : Int)) then
        Except.error (SpwError.boundsErr 0 (cd.N : Int) "col"
          (ErrActual.range col.1 col.2))
      else
        match whereItem cd.rows row.1.toNat with
        | Except.error e => Except.error e
        | Except.ok i1 =>
          match whereItem cd.rows (row.2 - 1).toNat with
          | Except.error e => Except.error e
          | Except.ok i2 =>
            let rs := row.1.toNat
            let re := row.2.toNat
            let cs := col.1.toNat
            let ce := col.2.toNat
            let off1 := (cd.rows.getD i1 (0, 0)).1
            let off2 := (cd.rows.getD i2 (0, 0)).1
            if i1 ≠ i2 then
              Except.ok (Block.owned (List.flatten
                (applyColRange
                    (((cd.data.getD i1 ⟨[], 0⟩).entries).drop (rs - off1)) cs ce
                  :: ((List.range' (i1 + 1) (i2 - (i1 + 1))).map
                      (fun i => applyColRange
                        ((cd.data.getD i ⟨[], 0⟩).entries) cs ce))
                  ++ [applyColRange
                        (((cd.data.getD i2 ⟨[], 0⟩).entries).take (re - off2))
                        cs ce])))
            else
              Except.ok (Block.view i1 (rs - off1) (re - off1) cs ce)

/-- Reading a block against the chunk storage: an owned buffer is its own
data; a view dereferences the indexed chunk and extracts the recorded
local row and column ranges (Python arr[ls:le, :][:, cs:ce]). -/
def Block.read {α : Type} (chunks : List (Chunk α)) : Block α → List (List α)
  | Block.owned d => d
  | Block.view i ls le cs ce =>
      applyColRange ((((chunks.getD i ⟨[], 0⟩).entries).drop ls).take (le - ls))
        cs ce

/-- Reading a whole query result: some data on success, none on error. -/
def readResult {α : Type} (chunks : List (Chunk α))
    (r : Except SpwError (Block α)) : Option (List (List α)) :=
  match r with
  | Except.ok b => some (Block.read chunks b)
  | Except.error _ => none

/-- The Indexer: a shared forward-only iterator (its not-yet-consumed
elements) and the announced length. -/
structure Indexer (α : Type) where
  iterobj : List α
  iterlen : Nat
deriving DecidableEq

/-- Indexer.__getitem__ for an integer index: the scalar check with
lims = [0, iterlen - 1], then next(islice(iterobj, idx, idx + 1)), which
advances the shared iterator past idx elements and yields the following
one, or raises StopIteration when the iterator runs out. Returns the
result together with the new iterator state. -/
def Indexer.getInt {α : Type} (s : Indexer α) (idx : Int) :
    Except SpwError α × Indexer α :=
  match spw_scalar_check idx "idx" 0 ((s.iterlen : Int) - 1) with
  | Except.error e => (Except.error e, s)
  | Except.ok _ =>
    match s.iterobj.drop idx.toNat with
    | [] => (Except.error SpwError.stopIteration, { s with iterobj := [] })
    | x :: rest => (Except.ok x, { s with iterobj := rest })

/-- Perform a sequence of integer index calls, threading the shared
iterator state, and record each result. -/
def Indexer.runCalls {α : Type} (s : Indexer α) :
    List Int → List (Except SpwError α)
  | [] => []
  | i :: rest =>
    let r := s.getInt i
    r.1 :: r.2.runCalls rest

/-- The two example chunks of the spec, shapes (3, 2) and (2, 2). -/
def exampleChunks : List (Chunk Nat) :=
  [⟨[[1, 2], [3, 4], [5, 6]], 2⟩, ⟨[[7, 8], [9, 10]], 2⟩]

/-- The chunk store built from the example chunks. -/
def exampleCD : ChunkData Nat :=
  { nrows := [3, 2]
    rows := [(0, 3), (3, 5)]
    M := 5
    N := 2
    shape := (5, 2)
    size := 10
    data := exampleChunks }

/-- A degenerate but constructible store: one chunk with zero rows
(numpy shape (0, 2)), giving M = 0. -/
def degenerateRowsCD : ChunkData Nat :=
  { nrows := [0]
    rows := [(0, 0)]
    M := 0
    N := 2
    shape := (0, 2)
    size := 0
    data := [⟨[], 2⟩] }

/-- A degenerate but constructible store: one chunk with two zero-length
rows (numpy shape (2, 0)), giving N = 0. -/
def degenerateColsCD : ChunkData Nat :=
  { nrows := [2]
    rows := [(0, 2)]
    M := 2
    N := 0
    shape := (2, 0)
    size := 0
    data := [⟨[[], []], 0⟩] }

/-! Helper lemmas about the row-range table and chunk lookup. -/

theorem offsets_length (l : List Nat) (a : Nat) :
    (offsets l a).length = l.length := by
  induction l generalizing a with
  | nil => rfl
  | cons n rest ih => simp [offsets, ih]

theorem offsets_getD (l : List Nat) (a j : Nat) (h : j < l.length) :
    (offsets l a).getD j (0, 0) =
      (a + (l.take j).sum, a + (l.take (j + 1)).sum) := by
  induction l generalizing a j with
  | nil => simp at h
  | cons n rest ih =>
    cases j with
    | zero => simp [offsets]
    | succ k =>
      have hk : k < rest.length := by simpa using h
      simp only [offsets, List.getD_cons_succ, ih (a + n) k hk,
        List.take_succ_cons, List.sum_cons]
      rw [Prod.mk.injEq]
      exact ⟨by omega, by omega⟩

theorem sum_take_mono (l : List Nat) {i j : Nat} (h : i ≤ j) :
    (l.take i).sum ≤ (l.take j).sum := by
  have h2 : (l.take j).take i = l.take i := by
    rw [List.take_take, Nat.min_eq_left h]
  calc (l.take i).sum ≤ (l.take i).sum + ((l.take j).drop i).sum :=
        Nat.le_add_right _ _
    _ = ((l.take j).take i).sum + ((l.take j).drop i).sum := by rw [h2]
    _ = (l.take j).sum := by rw [← List.sum_append, List.take_append_drop]

theorem sum_take_le (l : List Nat) (j : Nat) : (l.take j).sum ≤ l.sum := by
  calc (l.take j).sum ≤ (l.take (max j l.length)).sum :=
        sum_take_mono l (le_max_left _ _)
    _ = l.sum := by rw [List.take_of_length_le (le_max_right _ _)]

theorem filter_range_eq_single (n i : Nat) (p : Nat → Bool) (hi : i < n)
    (hp : p i = true) (huniq : ∀ j, j < n → p j = true → j = i) :
    (List.range n).filter p = [i] := by
  induction n with
  | zero => omega
  | succ m ih =>
    rw [List.range_succ, List.filter_append]
    by_cases hm : i = m
    · subst hm
      have h1 : (List.range i).filter p = [] := by
        apply List.filter_eq_nil_iff.mpr
        intro a ha hpa
        have h2 : a < i := List.mem_range.mp ha
        have h3 := huniq a (by omega) hpa
        omega
      rw [h1]
      simp [hp]
    · have hi2 : i < m := by omega
      have h1 : (List.range m).filter p = [i] :=
        ih hi2 (fun j hj hpj => huniq j (by omega) hpj)
      have h2 : ¬ p m = true := by
        intro hc
        exact hm (huniq m (by omega) hc).symm
      rw [h1]
      simp [h2]

theorem whereItem_offsets (nr : List Nat) (x j : Nat) (hj : j < nr.length)
    (h1 : (nr.take j).sum ≤ x) (h2 : x < (nr.take (j + 1)).sum) :
    whereItem (offsets nr 0) x = Except.ok j := by
  unfold whereItem
  have hlen : (offsets nr 0).length = nr.length := offsets_length nr 0
  have hfilter : (List.range (offsets nr 0).length).filter
      (fun i => decide (((offsets nr 0).getD i (0, 0)).1 ≤ x ∧
                        x < ((offsets nr 0).getD i (0, 0)).2)) = [j] := by
    rw [hlen]
    apply filter_range_eq_single nr.length j _ hj
    · simp only [decide_eq_true_eq, offsets_getD nr 0 j hj]
      constructor <;> omega
    · intro k hk hpk
      simp only [decide_eq_true_eq, offsets_getD nr 0 k hk] at hpk
      rcases Nat.lt_trichotomy k j with hlt | heq | hgt
      · exfalso
        have hmono := sum_take_mono nr (show k + 1 ≤ j from hlt)
        omega
      · exact heq
      · exfalso
        have hmono := sum_take_mono nr (show j + 1 ≤ k from hgt)
        omega
  rw [hfilter]

theorem exists_bracket (l : List Nat) (x : Nat) (hx : x < l.sum) :
    ∃ j, j < l.length ∧ (l.take j).sum ≤ x ∧ x < (l.take (j + 1)).sum := by
  induction l generalizing x with
  | nil => simp at hx
  | cons n rest ih =>
    by_cases hn : x < n
    · refine ⟨0, by simp, by simp, ?_⟩
      simpa using hn
    · have hx2 : x - n < rest.sum := by
        simp only [List.sum_cons] at hx
        omega
      obtain ⟨j, hj, hlo, hhi⟩ := ih (x - n) hx2
      refine ⟨j + 1, by simpa using Nat.succ_lt_succ hj, ?_, ?_⟩
      · rw [List.take_succ_cons, List.sum_cons]
        omega
      · rw [List.take_succ_cons, List.sum_cons]
        omega

theorem init_ok_elim {α : Type} {chunks : List (Chunk α)} {cd : ChunkData α}
    (h : ChunkData.init chunks = Except.ok cd) :
    cd.data = chunks ∧
    cd.nrows = chunks.map (fun c => c.entries.length) ∧
    cd.rows = offsets cd.nrows 0 ∧
    cd.M = cd.nrows.sum ∧
    cd.shape = (cd.M, cd.N) ∧
    cd.size = cd.M * cd.N ∧
    (∀ c ∈ chunks, c.cols = cd.N) := by
  cases chunks with
  | nil => exact absurd h (by simp [ChunkData.init])
  | cons c0 rest =>
    simp only [ChunkData.init] at h
    split at h
    next hall =>
      cases h
      simp only [List.all_eq_true, List.mem_map, decide_eq_true_eq,
        forall_exists_index, and_imp, Chunk.shape] at hall
      refine ⟨rfl, ?_, rfl, rfl, rfl, rfl, ?_⟩
      · simp [Chunk.shape, List.map_map]
      · intro c hc
        exact hall (c.entries.length, c.cols) c hc rfl
    next => exact absurd h (by simp)

theorem rows_length_init {α : Type} {chunks : List (Chunk α)}
    {cd : ChunkData α} (h : ChunkData.init chunks = Except.ok cd) :
    cd.rows.length = chunks.length := by
  obtain ⟨-, hn, hr, -, -, -, -⟩ := init_ok_elim h
  rw [hr, offsets_length, hn, List.length_map]

theorem nrows_length_init {α : Type} {chunks : List (Chunk α)}
    {cd : ChunkData α} (h : ChunkData.init chunks = Except.ok cd) :
    cd.nrows.length = chunks.length := by
  obtain ⟨-, hn, -, -, -, -, -⟩ := init_ok_elim h
  rw [hn, List.length_map]

theorem rows_getD_init {α : Type} {chunks : List (Chunk α)}
    {cd : ChunkData α} (h : ChunkData.init chunks = Except.ok cd)
    (j : Nat) (hj : j < chunks.length) :
    cd.rows.getD j (0, 0) =
      ((cd.nrows.take j).sum, (cd.nrows.take (j + 1)).sum) := by
  obtain ⟨-, hn, hr, -, -, -, -⟩ := init_ok_elim h
  have hj2 : j < cd.nrows.length := by rw [hn, List.length_map]; exact hj
  rw [hr, offsets_getD _ 0 j hj2]
  simp

theorem nrows_getD_init {α : Type} {chunks : List (Chunk α)}
    {cd : ChunkData α} (h : ChunkData.init chunks = Except.ok cd) (j : Nat) :
    cd.nrows.getD j 0 = (chunks.getD j ⟨[], 0⟩).entries.length := by
  obtain ⟨-, hn, -, -, -, -, -⟩ := init_ok_elim h
  rw [hn]
  have h2 := List.getD_map chunks (⟨[], 0⟩ : Chunk α)
    (f := fun c => c.entries.length) (n := j)
  simpa using h2

/-- Reduction of __getitem__ once both selectors are resolved, the limits
hold and both chunk lookups succeed: the query takes the stacking branch
for distinct chunks and the view branch for a single chunk. -/
theorem getitem_resolved {α : Type} (cd : ChunkData α) (qrow qcol : Selector)
    (rs re cs ce i1 i2 : Nat)
    (hr : resolveSel qrow cd.M "row" = Except.ok ((rs : Int), (re : Int)))
    (hc : resolveSel qcol cd.N "col" = Except.ok ((cs : Int), (ce : Int)))
    (h1 : rs < cd.M) (h2 : 0 < re) (h3 : re ≤ cd.M)
    (h4 : cs < cd.N) (h5 : 0 < ce) (h6 : ce ≤ cd.N)
    (hw1 : whereItem cd.rows rs = Except.ok i1)
    (hw2 : whereItem cd.rows (re - 1) = Except.ok i2) :
    cd.getitem qrow qcol =
      if i1 ≠ i2 then
        Except.ok (Block.owned (List.flatten
          (applyColRange
              (((cd.data.getD i1 ⟨[], 0⟩).entries).drop
                (rs - (cd.rows.getD i1 (0, 0)).1)) cs ce
            :: ((List.range' (i1 + 1) (i2 - (i1 + 1))).map
                (fun i => applyColRange
                  ((cd.data.getD i ⟨[], 0⟩).entries) cs ce))
            ++ [applyColRange
                  (((cd.data.getD i2 ⟨[], 0⟩).entries).take
                    (re - (cd.rows.getD i2 (0, 0)).1)) cs ce])))
      else
        Except.ok (Block.view i1 (rs - (cd.rows.getD i1 (0, 0)).1)
          (re - (cd.rows.getD i1 (0, 0)).1) cs ce) := by
  unfold ChunkData.getitem
  rw [hr, hc]
  dsimp only
  have hb1 : ¬ (¬ (0 ≤ (rs : Int) ∧ (rs : Int) < (cd.M : Int)) ∨
      ¬ (0 < (re : Int) ∧ (re : Int) ≤ (cd.M : Int))) := by omega
  have hb2 : ¬ (¬ (0 ≤ (cs : Int) ∧ (cs : Int) < (cd.N : Int)) ∨
      ¬ (0 < (ce : Int) ∧ (ce : Int) ≤ (cd.N : Int))) := by omega
  rw [if_neg hb1, if_neg hb2]
  have ht1 : ((rs : Int)).toNat = rs := Int.toNat_natCast rs
  have ht2 : ((re : Int) - 1).toNat = re - 1 := by omega
  have ht3 : ((re : Int)).toNat = re := Int.toNat_natCast re
  have ht4 : ((cs : Int)).toNat = cs := Int.toNat_natCast cs
  have ht5 : ((ce : Int)).toNat = ce := Int.toNat_natCast ce
  rw [ht1, ht2, hw1, hw2]
  dsimp only
  by_cases hne : i1 = i2
  · simp [hne, ht1, ht3, ht4, ht5]
  · simp [hne, ht1, ht3, ht4, ht5]

example : ChunkData.init exampleChunks = Except.ok exampleCD := by decide

example : exampleCD.getitem (Selector.slice (some 2) (some 4))
    (Selector.slice (some 0) (some 2)) =
    Except.ok (Block.owned [[5, 6], [7, 8]]) := by decide

example : exampleCD.getitem (Selector.slice (some 0) (some 3))
    (Selector.slice (some 0) (some 2)) =
    Except.ok (Block.view 0 0 3 0 2) := by decide

example : Indexer.runCalls ⟨[0, 1, 2, 3, 4], 5⟩ [0, 1, 2, 3, 4] =
    [Except.ok 0, Except.ok 2, Except.error SpwError.stopIteration,
     Except.error SpwError.stopIteration,
     Except.error SpwError.stopIteration] := by decide

theorem mem_bracket_init {α : Type} {chunks : List (Chunk α)}
    {cd : ChunkData α} (h : ChunkData.init chunks = Except.ok cd) {j x : Nat}
    (hj : j < cd.rows.length)
    (hx1 : (cd.rows.getD j (0, 0)).1 ≤ x)
    (hx2 : x < (cd.rows.getD j (0, 0)).2) :
    whereItem cd.rows x = Except.ok j ∧ x < cd.M := by
  obtain ⟨-, -, hr, hM, -, -, -⟩ := init_ok_elim h
  have hjc : j < chunks.length := by rw [← rows_length_init h]; exact hj
  have hgd := rows_getD_init h j hjc
  rw [hgd] at hx1 hx2
  refine ⟨?_, ?_⟩
  · rw [hr]
    exact whereItem_offsets cd.nrows x j
      (by rw [nrows_length_init h]; exact hjc) hx1 hx2
  · have h2 := sum_take_le cd.nrows (j + 1)
    omega

theorem sum_take_succ_getD (l : List Nat) (j : Nat) (hj : j < l.length) :
    (l.take (j + 1)).sum = (l.take j).sum + l.getD j 0 := by
  rw [List.take_succ, List.sum_append, List.getElem?_eq_getElem hj,
    List.getD_eq_getElem l 0 hj]
  simp

theorem resolveSel_int_ok (i : Int) (ext : Nat) (vn : String)
    (h : 0 ≤ i ∧ i ≤ (ext : Int)) :
    resolveSel (Selector.int i) ext vn = Except.ok (i, i + 1) := by
  unfold resolveSel spw_scalar_check
  dsimp only
  rw [if_pos h]

theorem resolveSel_int_err (i : Int) (ext : Nat) (vn : String)
    (h : ¬ (0 ≤ i ∧ i ≤ (ext : Int))) :
    resolveSel (Selector.int i) ext vn =
      Except.error (SpwError.boundsErr 0 (ext : Int) vn
        (ErrActual.scalar i)) := by
  unfold resolveSel spw_scalar_check
  dsimp only
  rw [if_neg h]

theorem applyColRange_full {α : Type} :
    ∀ (rws : List (List α)) (n : Nat),
      (∀ r ∈ rws, r.length = n) → applyColRange rws 0 n = rws
  | [], _, _ => rfl
  | r :: rest, n, h => by
    unfold applyColRange
    rw [List.map_cons]
    have h1 : (r.drop 0).take (n - 0) = r := by
      rw [List.drop_zero, Nat.sub_zero, ← h r (List.mem_cons_self r rest),
        List.take_length]
    rw [h1]
    have h2 := applyColRange_full rest n
      (fun r2 hm => h r2 (List.mem_cons_of_mem _ hm))
    unfold applyColRange at h2
    rw [h2]

theorem range'_map_getD {α : Type} (l : List α) (d : α) :
    ∀ (k a : Nat), a + k ≤ l.length →
      (List.range' a k).map (fun i => l.getD i d) = (l.drop a).take k := by
  intro k
  induction k with
  | zero => intro a _; simp
  | succ m ih =>
    intro a h
    have ha : a < l.length := by omega
    rw [List.range'_succ, List.map_cons, ih (a + 1) (by omega),
      List.drop_eq_getElem_cons ha, List.take_succ_cons,
      List.getD_eq_getElem l d ha]

theorem flatten_eq_middle {α : Type} (L : List (List α)) (a b : Nat)
    (hab : a ≤ b)
    (ha : ∀ l ∈ L.take a, l = []) (hb : ∀ l ∈ L.drop b, l = []) :
    L.flatten = ((L.take b).drop a).flatten := by
  conv_lhs => rw [← List.take_append_drop b L]
  rw [List.flatten_append, List.flatten_eq_nil_iff.mpr hb, List.append_nil]
  conv_lhs => rw [← List.take_append_drop a (L.take b)]
  rw [List.flatten_append, List.take_take, Nat.min_eq_left hab,
    List.flatten_eq_nil_iff.mpr ha, List.nil_append]

/-! The claim theorems. -/

/-- C4: constructing a ChunkData from an empty chunk list fails before any
instance is created: the column-consistency line evaluates the first
element of the empty shape list, which raises the (uncaught) IndexError
that signals the empty input. -/
theorem chunkData_init_empty_fails (α : Type) :
    ChunkData.init ([] : List (Chunk α)) = Except.error SpwError.indexErr :=
  rfl

/-- C10: a query with the empty row range slice(0, 0) always fails with a
bounds error naming the interval [0, M] and the offending range, because
the validation demands 0 < row.stop, even though the empty selection does
not exceed the matrix extent. -/
theorem chunkData_zero_slice_bounds {α : Type} (cd : ChunkData α)
    (co ce : Option Int) :
    cd.getitem (Selector.slice (some 0) (some 0)) (Selector.slice co ce) =
      Except.error (SpwError.boundsErr 0 (cd.M : Int) "row"
        (ErrActual.range 0 0)) := by
  unfold ChunkData.getitem resolveSel
  dsimp only [Option.getD_some]
  rw [if_pos (by omega)]

/-- C8: a successful construction records shape (M, N) with M the sum of
the per-chunk row counts, and size M * N. -/
theorem chunkData_shape_size {α : Type} (chunks : List (Chunk α))
    (cd : ChunkData α) (hinit : ChunkData.init chunks = Except.ok cd) :
    cd.shape = ((chunks.map (fun c => (Chunk.shape c).1)).sum, cd.N) ∧
    cd.M = (chunks.map (fun c => (Chunk.shape c).1)).sum ∧
    cd.size = cd.M * cd.N := by
  obtain ⟨-, hn, -, hM, hsh, hsz, -⟩ := init_ok_elim hinit
  have he : (chunks.map (fun c => (Chunk.shape c).1)) = cd.nrows := by
    rw [hn]
    exact List.map_congr_left (fun c _ => rfl)
  refine ⟨?_, ?_, hsz⟩
  · rw [hsh, he, hM]
  · rw [he, hM]

/-- C8 witness: the spec example with chunk shapes (3, 2) and (2, 2). -/
theorem chunkData_shape_size_witness :
    exampleCD.shape = (5, 2) ∧ exampleCD.size = 10 := by
  have h := chunkData_shape_size exampleChunks exampleCD (by decide)
  exact ⟨h.1.trans (by decide), h.2.2.trans (by decide)⟩

/-- C5: selectors resolving outside the legal extents fail with a bounds
error carrying the legal interval and the offending value: a row slice
reaching below 0 or beyond M fails naming [0, M]; an integer row outside
[0, M) fails naming [0, M]; with a valid row range, a column slice
reaching below 0 or beyond N fails naming [0, N]; in particular row
slices with stop = M + 1 or start = -1 fail naming [0, M]. -/
theorem chunkData_bounds_error {α : Type} (cd : ChunkData α)
    (rstart rstop cstart cstop i : Int) (co ce : Option Int) :
    ((rstart < 0 ∨ (cd.M : Int) < rstop) →
      cd.getitem (Selector.slice (some rstart) (some rstop))
          (Selector.slice co ce) =
        Except.error (SpwError.boundsErr 0 (cd.M : Int) "row"
          (ErrActual.range rstart rstop)))
    ∧ ((i < 0 ∨ (cd.M : Int) ≤ i) →
      ∃ a, cd.getitem (Selector.int i) (Selector.slice co ce) =
        Except.error (SpwError.boundsErr 0 (cd.M : Int) "row" a))
    ∧ (0 ≤ rstart → rstart < (cd.M : Int) → 0 < rstop →
       rstop ≤ (cd.M : Int) → (cstart < 0 ∨ (cd.N : Int) < cstop) →
      cd.getitem (Selector.slice (some rstart) (some rstop))
          (Selector.slice (some cstart) (some cstop)) =
        Except.error (SpwError.boundsErr 0 (cd.N : Int) "col"
          (ErrActual.range cstart cstop)))
    ∧ (cd.getitem (Selector.slice (some rstart) (some ((cd.M : Int) + 1)))
          (Selector.slice co ce) =
        Except.error (SpwError.boundsErr 0 (cd.M : Int) "row"
          (ErrActual.range rstart ((cd.M : Int) + 1))))
    ∧ (cd.getitem (Selector.slice (some (-1)) (some rstop))
          (Selector.slice co ce) =
        Except.error (SpwError.boundsErr 0 (cd.M : Int) "row"
          (ErrActual.range (-1) rstop))) := by
  refine ⟨?_, ?_, ?_, ?_, ?_⟩
  · intro h
    unfold ChunkData.getitem resolveSel
    dsimp only [Option.getD_some]
    rw [if_pos (by omega)]
  · intro h
    by_cases hp : 0 ≤ i ∧ i ≤ (cd.M : Int)
    · refine ⟨ErrActual.range i (i + 1), ?_⟩
      unfold ChunkData.getitem
      rw [resolveSel_int_ok i cd.M "row" hp]
      unfold resolveSel
      dsimp only
      rw [if_pos (by omega)]
    · refine ⟨ErrActual.scalar i, ?_⟩
      unfold ChunkData.getitem
      rw [resolveSel_int_err i cd.M "row" hp]
  · intro h1 h2 h3 h4 h5
    unfold ChunkData.getitem resolveSel
    dsimp only [Option.getD_some]
    rw [if_neg (by omega), if_pos (by omega)]
  · unfold ChunkData.getitem resolveSel
    dsimp only [Option.getD_some]
    rw [if_pos (by omega)]
  · unfold ChunkData.getitem resolveSel
    dsimp only [Option.getD_some]
    rw [if_pos (by omega)]

/-- C5 witness: on the (5, 2) example store, row stop 6 and row start -1
fail naming [0, 5], and a column stop 3 fails naming [0, 2]. -/
theorem chunkData_bounds_error_witness :
    exampleCD.getitem (Selector.slice (some 0) (some 6))
        (Selector.slice (some 0) (some 2)) =
      Except.error (SpwError.boundsErr 0 5 "row" (ErrActual.range 0 6)) ∧
    exampleCD.getitem (Selector.slice (some (-1)) (some 3))
        (Selector.slice (some 0) (some 2)) =
      Except.error (SpwError.boundsErr 0 5 "row" (ErrActual.range (-1) 3)) ∧
    exampleCD.getitem (Selector.slice (some 0) (some 3))
        (Selector.slice (some 0) (some 3)) =
      Except.error (SpwError.boundsErr 0 2 "col" (ErrActual.range 0 3)) := by
  refine ⟨?_, ?_, ?_⟩
  · exact (chunkData_bounds_error exampleCD 0 6 0 3 7
      (some 0) (some 2)).1 (by decide)
  · exact (chunkData_bounds_error exampleCD (-1) 3 0 3 7
      (some 0) (some 2)).2.2.2.2
  · exact (chunkData_bounds_error exampleCD 0 3 0 3 7
      (some 0) (some 2)).2.2.1 (by decide) (by decide) (by decide)
      (by decide) (by decide)

/-- C2: a row range whose start lies in chunk i1 and whose stop - 1 lies
in a different chunk i2 yields the owned vertical concatenation of: the
local tail of chunk i1 from row.start - rowStart[i1], every full chunk
strictly between i1 and i2, and the local head of chunk i2 up to
row.stop - rowStart[i2], with the column selector applied to every
block. -/
theorem chunkData_cross_chunk {α : Type} (chunks : List (Chunk α))
    (cd : ChunkData α) (rs re cs ce i1 i2 : Nat)
    (hinit : ChunkData.init chunks = Except.ok cd)
    (hi1 : i1 < cd.rows.length) (hi2 : i2 < cd.rows.length)
    (hm1a : (cd.rows.getD i1 (0, 0)).1 ≤ rs)
    (hm1b : rs < (cd.rows.getD i1 (0, 0)).2)
    (hm2a : (cd.rows.getD i2 (0, 0)).1 ≤ re - 1)
    (hm2b : re - 1 < (cd.rows.getD i2 (0, 0)).2)
    (hrr : rs < re) (hne : i1 ≠ i2)
    (hcs : cs < cd.N) (hce0 : 0 < ce) (hceN : ce ≤ cd.N) :
    cd.getitem (Selector.slice (some (rs : Int)) (some (re : Int)))
        (Selector.slice (some (cs : Int)) (some (ce : Int))) =
      Except.ok (Block.owned (List.flatten
        (applyColRange
            ((chunks.getD i1 ⟨[], 0⟩).entries.drop
              (rs - (cd.rows.getD i1 (0, 0)).1)) cs ce
          :: ((List.range' (i1 + 1) (i2 - (i1 + 1))).map
              (fun i => applyColRange ((chunks.getD i ⟨[], 0⟩).entries) cs ce))
          ++ [applyColRange
                ((chunks.getD i2 ⟨[], 0⟩).entries.take
                  (re - (cd.rows.getD i2 (0, 0)).1)) cs ce]))) := by
  obtain ⟨hdata, -, -, -, -, -, -⟩ := init_ok_elim hinit
  have hw1 := mem_bracket_init hinit hi1 hm1a hm1b
  have hw2 := mem_bracket_init hinit hi2 hm2a hm2b
  have h2 : 0 < re := by omega
  have h3 : re ≤ cd.M := by omega
  have hres := getitem_resolved cd
    (Selector.slice (some (rs : Int)) (some (re : Int)))
    (Selector.slice (some (cs : Int)) (some (ce : Int)))
    rs re cs ce i1 i2 rfl rfl
    hw1.2 h2 h3 hcs hce0 hceN hw1.1 hw2.1
  rw [hres, if_pos hne, hdata]

/-- C2 witness: rows [2, 4) of the (3, 2) / (2, 2) example stack row 2 of
chunk 0 on row 0 of chunk 1, an owned buffer of shape (2, 2). -/
theorem chunkData_cross_chunk_witness :
    exampleCD.getitem (Selector.slice (some 2) (some 4))
        (Selector.slice (some 0) (some 2)) =
      Except.ok (Block.owned [[5, 6], [7, 8]]) := by
  have h := chunkData_cross_chunk exampleChunks exampleCD 2 4 0 2 0 1
    (by decide) (by decide) (by decide) (by decide) (by decide) (by decide)
    (by decide) (by decide) (by decide) (by decide) (by decide) (by decide)
  exact h.trans (by decide)

/-- C3: a row range lying entirely inside one chunk returns a borrowed
view into that chunk (no owned buffer is allocated for the row
dimension), and reading the view goes through the chunk storage: after
replacing the chunk, the same view exposes the replacement data, so a
mutation of the source chunk is observable through the block. -/
theorem chunkData_within_chunk_view {α : Type} (chunks : List (Chunk α))
    (cd : ChunkData α) (rs re cs ce i1 : Nat)
    (hinit : ChunkData.init chunks = Except.ok cd)
    (hi1 : i1 < cd.rows.length)
    (hm1a : (cd.rows.getD i1 (0, 0)).1 ≤ rs)
    (hm1b : rs < (cd.rows.getD i1 (0, 0)).2)
    (hm2a : (cd.rows.getD i1 (0, 0)).1 ≤ re - 1)
    (hm2b : re - 1 < (cd.rows.getD i1 (0, 0)).2)
    (hre : 0 < re)
    (hcs : cs < cd.N) (hce0 : 0 < ce) (hceN : ce ≤ cd.N) :
    cd.getitem (Selector.slice (some (rs : Int)) (some (re : Int)))
        (Selector.slice (some (cs : Int)) (some (ce : Int))) =
      Except.ok (Block.view i1 (rs - (cd.rows.getD i1 (0, 0)).1)
        (re - (cd.rows.getD i1 (0, 0)).1) cs ce) ∧
    (∀ c2 : Chunk α,
      Block.read (chunks.set i1 c2)
        (Block.view i1 (rs - (cd.rows.getD i1 (0, 0)).1)
          (re - (cd.rows.getD i1 (0, 0)).1) cs ce) =
      applyColRange
        ((c2.entries.drop (rs - (cd.rows.getD i1 (0, 0)).1)).take
          ((re - (cd.rows.getD i1 (0, 0)).1) -
            (rs - (cd.rows.getD i1 (0, 0)).1))) cs ce) := by
  have hw1 := mem_bracket_init hinit hi1 hm1a hm1b
  have hw2 := mem_bracket_init hinit hi1 hm2a hm2b
  have h3 : re ≤ cd.M := by omega
  have hres := getitem_resolved cd
    (Selector.slice (some (rs : Int)) (some (re : Int)))
    (Selector.slice (some (cs : Int)) (some (ce : Int)))
    rs re cs ce i1 i1 rfl rfl
    hw1.2 hre h3 hcs hce0 hceN hw1.1 hw2.1
  refine ⟨?_, ?_⟩
  · rw [hres, if_neg (fun hc => hc rfl)]
  · intro c2
    have hlen : i1 < chunks.length := by
      rw [← rows_length_init hinit]; exact hi1
    have hset : (chunks.set i1 c2).getD i1 ⟨[], 0⟩ = c2 := by
      rw [List.getD_eq_getElem _ _ (by rw [List.length_set]; exact hlen)]
      exact List.getElem_set_self _
    unfold Block.read
    dsimp only
    rw [hset]

/-- C3 witness: rows [0, 3) of the example store return the borrowed view
into chunk 0, and replacing chunk 0 is observable through that view. -/
theorem chunkData_within_chunk_view_witness :
    exampleCD.getitem (Selector.slice (some 0) (some 3))
        (Selector.slice (some 0) (some 2)) =
      Except.ok (Block.view 0 0 3 0 2) ∧
    Block.read (exampleChunks.set 0 ⟨[[100, 2], [3, 4], [5, 6]], 2⟩)
        (Block.view 0 0 3 0 2) = [[100, 2], [3, 4], [5, 6]] := by
  have h := chunkData_within_chunk_view exampleChunks exampleCD 0 3 0 2 0
    (by decide) (by decide) (by decide) (by decide) (by decide) (by decide)
    (by decide) (by decide) (by decide) (by decide)
  refine ⟨h.1.trans (by decide), ?_⟩
  have h2 := h.2 ⟨[[100, 2], [3, 4], [5, 6]], 2⟩
  exact h2.trans (by decide)

/-- C9: a reversed row slice with 0 < stop < start < M passes validation
(no check demands start ≤ stop). When start and stop - 1 fall in one
chunk the query returns a view whose local range is empty, reading as a
zero-row block; when the chunk of start lies after the chunk of stop - 1
the query returns a non-empty owned block stacking the tail of the start
chunk on the head of the stop chunk, raising no error. -/
theorem chunkData_reversed_slice {α : Type} (chunks : List (Chunk α))
    (cd : ChunkData α) (rs re cs ce i1 i2 : Nat)
    (hinit : ChunkData.init chunks = Except.ok cd)
    (hre0 : 0 < re) (hrev : re < rs)
    (hi1 : i1 < cd.rows.length) (hi2 : i2 < cd.rows.length)
    (hm1a : (cd.rows.getD i1 (0, 0)).1 ≤ rs)
    (hm1b : rs < (cd.rows.getD i1 (0, 0)).2)
    (hm2a : (cd.rows.getD i2 (0, 0)).1 ≤ re - 1)
    (hm2b : re - 1 < (cd.rows.getD i2 (0, 0)).2)
    (hcs : cs < cd.N) (hce0 : 0 < ce) (hceN : ce ≤ cd.N) :
    (i1 = i2 →
      cd.getitem (Selector.slice (some (rs : Int)) (some (re : Int)))
          (Selector.slice (some (cs : Int)) (some (ce : Int))) =
        Except.ok (Block.view i1 (rs - (cd.rows.getD i1 (0, 0)).1)
          (re - (cd.rows.getD i1 (0, 0)).1) cs ce) ∧
      Block.read chunks (Block.view i1 (rs - (cd.rows.getD i1 (0, 0)).1)
        (re - (cd.rows.getD i1 (0, 0)).1) cs ce) = [])
    ∧ (i2 < i1 →
      cd.getitem (Selector.slice (some (rs : Int)) (some (re : Int)))
          (Selector.slice (some (cs : Int)) (some (ce : Int))) =
        Except.ok (Block.owned
          (applyColRange ((chunks.getD i1 ⟨[], 0⟩).entries.drop
              (rs - (cd.rows.getD i1 (0, 0)).1)) cs ce ++
           applyColRange ((chunks.getD i2 ⟨[], 0⟩).entries.take
              (re - (cd.rows.getD i2 (0, 0)).1)) cs ce)) ∧
      applyColRange ((chunks.getD i1 ⟨[], 0⟩).entries.drop
          (rs - (cd.rows.getD i1 (0, 0)).1)) cs ce ++
        applyColRange ((chunks.getD i2 ⟨[], 0⟩).entries.take
          (re - (cd.rows.getD i2 (0, 0)).1)) cs ce ≠ []) := by
  obtain ⟨hdata, -, -, -, -, -, -⟩ := init_ok_elim hinit
  have hw1 := mem_bracket_init hinit hi1 hm1a hm1b
  have hw2 := mem_bracket_init hinit hi2 hm2a hm2b
  have h3 : re ≤ cd.M := by omega
  have hres := getitem_resolved cd
    (Selector.slice (some (rs : Int)) (some (re : Int)))
    (Selector.slice (some (cs : Int)) (some (ce : Int)))
    rs re cs ce i1 i2 rfl rfl
    hw1.2 hre0 h3 hcs hce0 hceN hw1.1 hw2.1
  constructor
  · intro heq
    subst heq
    refine ⟨by rw [hres, if_neg (fun hc => hc rfl)], ?_⟩
    unfold Block.read
    dsimp only
    have hle : re - (cd.rows.getD i1 (0, 0)).1 -
        (rs - (cd.rows.getD i1 (0, 0)).1) = 0 := by omega
    rw [hle]
    simp [applyColRange]
  · intro hlt
    have hne : i1 ≠ i2 := by omega
    have hmid : i2 - (i1 + 1) = 0 := by omega
    constructor
    · rw [hres, if_pos hne, hdata, hmid]
      simp [applyColRange]
    · have hi1c : i1 < chunks.length := by
        rw [← rows_length_init hinit]; exact hi1
      have hrg := rows_getD_init hinit i1 hi1c
      have hsum := sum_take_succ_getD cd.nrows i1
        (by rw [nrows_length_init hinit]; exact hi1c)
      have hnr := nrows_getD_init hinit i1
      have hm1a2 := hm1a
      have hm1b2 := hm1b
      rw [hrg] at hm1a2 hm1b2
      dsimp only at hm1a2 hm1b2
      have hkey : rs - (cd.rows.getD i1 (0, 0)).1 <
          (chunks.getD i1 ⟨[], 0⟩).entries.length := by
        rw [hrg]
        dsimp only
        omega
      intro hnil
      have hA : applyColRange ((chunks.getD i1 ⟨[], 0⟩).entries.drop
          (rs - (cd.rows.getD i1 (0, 0)).1)) cs ce ≠ [] := by
        apply List.ne_nil_of_length_pos
        unfold applyColRange
        rw [List.length_map, List.length_drop]
        omega
      exact hA (List.append_eq_nil.mp hnil).1

/-- C9 witness: on the example store, rows [2, 1) stay in chunk 0 and give
an empty view, while rows [4, 2) cross from chunk 1 back to chunk 0 and
give the non-empty owned stack of chunk 1 row 0 and chunk 0 rows 0-1. -/
theorem chunkData_reversed_slice_witness :
    exampleCD.getitem (Selector.slice (some 2) (some 1))
        (Selector.slice (some 0) (some 2)) =
      Except.ok (Block.view 0 2 1 0 2) ∧
    Block.read exampleChunks (Block.view 0 2 1 0 2) = [] ∧
    exampleCD.getitem (Selector.slice (some 4) (some 2))
        (Selector.slice (some 0) (some 2)) =
      Except.ok (Block.owned [[9, 10], [1, 2], [3, 4]]) := by
  have hA := chunkData_reversed_slice exampleChunks exampleCD 2 1 0 2 0 0
    (by decide) (by decide) (by decide) (by decide) (by decide) (by decide)
    (by decide) (by decide) (by decide) (by decide) (by decide) (by decide)
  have hB := chunkData_reversed_slice exampleChunks exampleCD 4 2 0 2 1 0
    (by decide) (by decide) (by decide) (by decide) (by decide) (by decide)
    (by decide) (by decide) (by decide) (by decide) (by decide) (by decide)
  refine ⟨(hA.1 rfl).1.trans (by decide), ?_, ((hB.2 (by decide)).1).trans (by decide)⟩
  exact (hA.1 rfl).2

theorem map_entries_take_nil {α : Type} {chunks : List (Chunk α)}
    {cd : ChunkData α} (hinit : ChunkData.init chunks = Except.ok cd)
    {a : Nat} (hsum : (cd.nrows.take a).sum = 0) :
    ∀ l ∈ (chunks.map Chunk.entries).take a, l = [] := by
  obtain ⟨-, hn, -, -, -, -, -⟩ := init_ok_elim hinit
  intro l hl
  rw [hn, ← List.map_take] at hsum
  rw [← List.map_take] at hl
  obtain ⟨c, hc, rfl⟩ := List.mem_map.mp hl
  have hz := List.sum_eq_zero_iff.mp hsum (c.entries.length)
    (List.mem_map.mpr ⟨c, hc, rfl⟩)
  exact List.length_eq_zero.mp hz

theorem map_entries_drop_nil {α : Type} {chunks : List (Chunk α)}
    {cd : ChunkData α} (hinit : ChunkData.init chunks = Except.ok cd)
    {b : Nat} (hsum : (cd.nrows.drop b).sum = 0) :
    ∀ l ∈ (chunks.map Chunk.entries).drop b, l = [] := by
  obtain ⟨-, hn, -, -, -, -, -⟩ := init_ok_elim hinit
  intro l hl
  rw [hn, ← List.map_drop] at hsum
  rw [← List.map_drop] at hl
  obtain ⟨c, hc, rfl⟩ := List.mem_map.mp hl
  have hz := List.sum_eq_zero_iff.mp hsum (c.entries.length)
    (List.mem_map.mpr ⟨c, hc, rfl⟩)
  exact List.length_eq_zero.mp hz

theorem getD_map_entries {α : Type} (chunks : List (Chunk α)) (j : Nat) :
    (chunks.map Chunk.entries).getD j [] =
      (chunks.getD j ⟨[], 0⟩).entries := by
  have h := List.getD_map chunks (⟨[], 0⟩ : Chunk α) (f := Chunk.entries)
    (n := j)
  simpa using h

/-- C7 (amended): on a store with at least one row and one column and
rectangular chunks, the full-range query (rows [0, M), all columns)
succeeds and reads back as the vertical concatenation of all chunks in
stored order. -/
theorem chunkData_full_range_concat {α : Type} (chunks : List (Chunk α))
    (cd : ChunkData α) (hinit : ChunkData.init chunks = Except.ok cd)
    (hM : 0 < cd.M) (hN : 0 < cd.N)
    (hrect : ∀ c ∈ chunks, Chunk.rect c) :
    readResult chunks (cd.getitem
        (Selector.slice (some 0) (some (cd.M : Int)))
        (Selector.slice none none)) =
      some (chunks.map Chunk.entries).flatten := by
  obtain ⟨hdata, hn, hr, hMeq, -, -, hcols⟩ := init_ok_elim hinit
  have hnlen : cd.nrows.length = chunks.length := nrows_length_init hinit
  have hrlen : cd.rows.length = chunks.length := rows_length_init hinit
  obtain ⟨j1, hj1, hj1a, hj1b⟩ := exists_bracket cd.nrows 0 (by omega)
  obtain ⟨j2, hj2, hj2a, hj2b⟩ := exists_bracket cd.nrows (cd.M - 1) (by omega)
  have hw1 : whereItem cd.rows 0 = Except.ok j1 := by
    rw [hr]; exact whereItem_offsets cd.nrows 0 j1 hj1 hj1a hj1b
  have hw2 : whereItem cd.rows (cd.M - 1) = Except.ok j2 := by
    rw [hr]; exact whereItem_offsets cd.nrows (cd.M - 1) j2 hj2 hj2a hj2b
  have hA1 : (cd.nrows.take j1).sum = 0 := by omega
  have hA2 : (cd.nrows.take (j2 + 1)).sum = cd.nrows.sum := by
    have h1 := sum_take_le cd.nrows (j2 + 1)
    omega
  have hdropsum : (cd.nrows.drop (j2 + 1)).sum = 0 := by
    have h1 := List.sum_take_add_sum_drop cd.nrows (j2 + 1)
    omega
  have hj12 : j1 ≤ j2 := by
    by_contra hcon
    push_neg at hcon
    have h1 := sum_take_mono cd.nrows (show j2 + 1 ≤ j1 by omega)
    omega
  have hrN : ∀ k, k < chunks.length →
      ∀ r ∈ (chunks.getD k ⟨[], 0⟩).entries, r.length = cd.N := by
    intro k hk r hrr
    have hmem : chunks.getD k ⟨[], 0⟩ ∈ chunks := by
      rw [List.getD_eq_getElem _ _ hk]
      exact List.getElem_mem hk
    exact (hrect _ hmem r hrr).trans (hcols _ hmem)
  have hlen1 := nrows_getD_init hinit j1
  have hlen2 := nrows_getD_init hinit j2
  have hrg1 := rows_getD_init hinit j1 (by omega)
  have hrg2 := rows_getD_init hinit j2 (by omega)
  have hst1 := sum_take_succ_getD cd.nrows j1 hj1
  have hst2 := sum_take_succ_getD cd.nrows j2 hj2
  have hoff1 : (cd.rows.getD j1 (0, 0)).1 = 0 := by
    rw [hrg1]; dsimp only; omega
  have hres := getitem_resolved cd
    (Selector.slice (some 0) (some (cd.M : Int)))
    (Selector.slice none none)
    0 cd.M 0 cd.N j1 j2 rfl rfl hM hM (le_refl _) hN hN (le_refl _) hw1 hw2
  by_cases heq : j1 = j2
  · subst heq
    rw [hres, if_neg (fun hc => hc rfl)]
    unfold readResult Block.read
    dsimp only
    have hnl : (chunks.getD j1 ⟨[], 0⟩).entries.length = cd.M := by
      rw [← hlen1]
      omega
    rw [hoff1]
    simp only [Nat.sub_zero, Nat.zero_sub, List.drop_zero]
    rw [List.take_of_length_le (by omega)]
    rw [applyColRange_full _ _ (hrN j1 (by omega))]
    congr 1
    have hmid := flatten_eq_middle (chunks.map Chunk.entries) j1 (j1 + 1)
      (by omega) (map_entries_take_nil hinit hA1)
      (map_entries_drop_nil hinit hdropsum)
    rw [hmid, List.drop_take]
    have h11 : j1 + 1 - j1 = 1 := by omega
    rw [h11]
    rw [← range'_map_getD (chunks.map Chunk.entries) [] 1 j1
      (by rw [List.length_map]; omega)]
    rw [List.range'_one, List.map_cons, List.map_nil, List.flatten_cons,
      List.flatten_nil, List.append_nil, getD_map_entries]
  · rw [hres, if_pos heq, hdata]
    unfold readResult Block.read
    dsimp only
    congr 1
    have hlt : j1 < j2 := by
      rcases Nat.lt_or_ge j1 j2 with h | h
      · exact h
      · omega
    have hoff2n : cd.M - (cd.rows.getD j2 (0, 0)).1 = cd.nrows.getD j2 0 := by
      rw [hrg2]; dsimp only; omega
    rw [hoff1]
    simp only [Nat.sub_zero, Nat.zero_sub, List.drop_zero]
    rw [applyColRange_full _ _ (hrN j1 (by omega))]
    rw [hoff2n, List.take_of_length_le (by omega)]
    rw [applyColRange_full _ _ (hrN j2 (by omega))]
    have hmapcg : (List.range' (j1 + 1) (j2 - (j1 + 1))).map
        (fun i => applyColRange (chunks.getD i ⟨[], 0⟩).entries 0 cd.N) =
        (List.range' (j1 + 1) (j2 - (j1 + 1))).map
          (fun i => (chunks.map Chunk.entries).getD i []) := by
      apply List.map_congr_left
      intro i hi
      rw [List.mem_range'_1] at hi
      have hik : i < chunks.length := by omega
      rw [applyColRange_full _ _ (hrN i hik), getD_map_entries]
    rw [hmapcg]
    rw [show (chunks.getD j1 ⟨[], 0⟩).entries =
      (chunks.map Chunk.entries).getD j1 [] from (getD_map_entries _ _).symm]
    rw [show (chunks.getD j2 ⟨[], 0⟩).entries =
      (chunks.map Chunk.entries).getD j2 [] from (getD_map_entries _ _).symm]
    have hlist : ((chunks.map Chunk.entries).getD j1 []
        :: (List.range' (j1 + 1) (j2 - (j1 + 1))).map
            (fun i => (chunks.map Chunk.entries).getD i [])
        ++ [(chunks.map Chunk.entries).getD j2 []]) =
        (List.range' j1 (j2 - j1 + 1)).map
          (fun i => (chunks.map Chunk.entries).getD i []) := by
      rw [List.range'_succ, List.map_cons]
      have hk : j2 - j1 = (j2 - (j1 + 1)) + 1 := by omega
      rw [hk, List.range'_1_concat, List.map_append]
      have he : j1 + 1 + (j2 - (j1 + 1)) = j2 := by omega
      rw [he, List.map_cons, List.map_nil]
      simp
    rw [hlist]
    rw [range'_map_getD (chunks.map Chunk.entries) [] (j2 - j1 + 1) j1
      (by rw [List.length_map]; omega)]
    have hmid := flatten_eq_middle (chunks.map Chunk.entries) j1 (j2 + 1)
      (by omega) (map_entries_take_nil hinit hA1)
      (map_entries_drop_nil hinit hdropsum)
    rw [hmid, List.drop_take]
    have h21 : j2 + 1 - j1 = j2 - j1 + 1 := by omega
    rw [h21]

/-- C7 counterexample: constructible degenerate stores (a chunk of numpy
shape (0, 2), and a chunk of shape (2, 0)) accept construction, but their
full-range query raises a bounds error instead of returning the
concatenation of the chunks. -/
theorem chunkData_full_range_counterexample :
    ChunkData.init ([⟨[], 2⟩] : List (Chunk Nat)) =
      Except.ok degenerateRowsCD ∧
    degenerateRowsCD.getitem
        (Selector.slice (some 0) (some (degenerateRowsCD.M : Int)))
        (Selector.slice none none) =
      Except.error (SpwError.boundsErr 0 0 "row" (ErrActual.range 0 0)) ∧
    ChunkData.init ([⟨[[], []], 0⟩] : List (Chunk Nat)) =
      Except.ok degenerateColsCD ∧
    degenerateColsCD.getitem
        (Selector.slice (some 0) (some (degenerateColsCD.M : Int)))
        (Selector.slice none none) =
      Except.error (SpwError.boundsErr 0 0 "col" (ErrActual.range 0 0)) := by
  refine ⟨by decide, by decide, by decide, by decide⟩

/-- C7 witness: the example store reads its full range back as the
concatenation of both chunks. -/
theorem chunkData_full_range_concat_witness :
    readResult exampleChunks (exampleCD.getitem
        (Selector.slice (some 0) (some 5)) (Selector.slice none none)) =
      some [[1, 2], [3, 4], [5, 6], [7, 8], [9, 10]] := by
  have hrect : ∀ c ∈ exampleChunks, ∀ r ∈ c.entries, r.length = c.cols := by
    decide
  have h := chunkData_full_range_concat exampleChunks exampleCD (by decide)
    (by decide) (by decide) hrect
  exact h.trans (by decide)

/-- C1 counterexample: over a fresh producer of the five elements
0, 1, 2, 3, 4 with length 5, the increasing calls index(0) .. index(4) do
NOT return each element once in producer order: they yield element 0,
then element 2, then three StopIteration failures, because each call
skips as many elements as the requested index from the current cursor. -/
theorem indexer_sequential_counterexample :
    Indexer.runCalls (⟨[0, 1, 2, 3, 4], 5⟩ : Indexer Nat) [0, 1, 2, 3, 4] =
      [Except.ok 0, Except.ok 2, Except.error SpwError.stopIteration,
       Except.error SpwError.stopIteration,
       Except.error SpwError.stopIteration] ∧
    Indexer.runCalls (⟨[0, 1, 2, 3, 4], 5⟩ : Indexer Nat) [0, 1, 2, 3, 4] ≠
      [Except.ok 0, Except.ok 1, Except.ok 2, Except.ok 3, Except.ok 4] := by
  refine ⟨by decide, by decide⟩

/-- C1 (amended): for a fresh producer of five elements with length 5, the
increasing calls index(0), index(1), ..., index(4) return the first
element, then the third element, and then fail with StopIteration three
times, the shared cursor having been exhausted; the sequence does not
return each produced element exactly once. -/
theorem indexer_sequential_actual {α : Type} (a b c d e : α) :
    Indexer.runCalls (⟨[a, b, c, d, e], 5⟩ : Indexer α) [0, 1, 2, 3, 4] =
      [Except.ok a, Except.ok c, Except.error SpwError.stopIteration,
       Except.error SpwError.stopIteration,
       Except.error SpwError.stopIteration] := rfl

/-- C6: index(i) validates 0 <= i < L through the scalar check with limits
[0, L - 1] and fails with a bounds error otherwise; a valid index is
cursor-relative: the call drops i elements from the shared iterator and
yields the next one (or StopIteration when the iterator runs out), so
after a successful index(3) a call index(0) yields the element right
after the one index(3) returned, or exhausts the producer - element 0 is
not returned a second time. -/
theorem indexer_cursor_relative {α : Type} (s : Indexer α) (idx : Int) :
    ((idx < 0 ∨ (s.iterlen : Int) ≤ idx) →
      s.getInt idx = (Except.error (SpwError.boundsErr 0
        ((s.iterlen : Int) - 1) "idx" (ErrActual.scalar idx)), s))
    ∧ (0 ≤ idx → idx < (s.iterlen : Int) →
      ((s.getInt idx).1 = (match (s.iterobj.drop idx.toNat).head? with
          | some x => Except.ok x
          | none => Except.error SpwError.stopIteration)
        ∧ (s.getInt idx).2.iterobj = (s.iterobj.drop idx.toNat).tail
        ∧ (s.getInt idx).2.iterlen = s.iterlen))
    ∧ ((3 : Int) < (s.iterlen : Int) → ∀ x s3,
        s.getInt 3 = (Except.ok x, s3) →
        s3.getInt 0 = ((match (s.iterobj.drop 4).head? with
          | some y => Except.ok y
          | none => Except.error SpwError.stopIteration),
          { s3 with iterobj := (s.iterobj.drop 4).tail })) := by
  refine ⟨?_, ?_, ?_⟩
  · intro h
    unfold Indexer.getInt spw_scalar_check
    rw [if_neg (by omega)]
  · intro h1 h2
    unfold Indexer.getInt spw_scalar_check
    rw [if_pos (by omega)]
    cases hD : s.iterobj.drop idx.toNat with
    | nil => exact ⟨by simp, by simp, by simp⟩
    | cons x rest => exact ⟨by simp, by simp, by simp⟩
  · intro h3 x s3 hx
    unfold Indexer.getInt spw_scalar_check at hx
    rw [if_pos (by omega)] at hx
    cases hD : s.iterobj.drop (3 : Int).toNat with
    | nil =>
      rw [hD] at hx
      simp at hx
    | cons a rest =>
      rw [hD] at hx
      dsimp only at hx
      have hxa : x = a := by
        have := congrArg Prod.fst hx
        simp at this
        exact this.symm
      have hs3 : s3 = { s with iterobj := rest } := by
        have := congrArg Prod.snd hx
        simp at this
        exact this.symm
      have hrest : rest = s.iterobj.drop 4 := by
        have ht := List.tail_drop s.iterobj 3
        rw [show ((3 : Int).toNat) = 3 from rfl] at hD
        rw [hD] at ht
        simpa using ht
      subst hs3
      unfold Indexer.getInt spw_scalar_check
      rw [if_pos (by simp; omega)]
      rw [show ((0 : Int).toNat) = 0 from rfl, List.drop_zero]
      dsimp only
      rw [← hrest]
      cases rest with
      | nil => simp
      | cons y r2 => simp

/-- C6 witness: on a five-element producer, index(7) fails the bounds
check naming [0, 4]; after index(3) returned the fourth element, a
further index(0) yields the fifth element, not element 0 again. -/
theorem indexer_cursor_relative_witness :
    Indexer.getInt (⟨[10, 20, 30, 40, 50], 5⟩ : Indexer Nat) 7 =
      (Except.error (SpwError.boundsErr 0 4 "idx" (ErrActual.scalar 7)),
        (⟨[10, 20, 30, 40, 50], 5⟩ : Indexer Nat)) ∧
    Indexer.getInt (⟨[50], 5⟩ : Indexer Nat) 0 =
      (Except.ok 50, (⟨[], 5⟩ : Indexer Nat)) := by
  constructor
  · exact ((indexer_cursor_relative
      (⟨[10, 20, 30, 40, 50], 5⟩ : Indexer Nat) 7).1 (by decide)).trans
      (by decide)
  · have h := (indexer_cursor_relative
      (⟨[10, 20, 30, 40, 50], 5⟩ : Indexer Nat) 3).2.2 (by decide) 40
      (⟨[50], 5⟩ : Indexer Nat) (by decide)
    exact h.trans (by decide)

end Spykewave
